import Mathlib

/-!
Shallow embedding of the Monte Carlo limit-order-book experiment engine from
`notebooks/probs.py`: the categorical event sampler (`np.random.choice` over
normalized rates), the abstract trial driver `MonteCarloExperiment.evaluate`,
the four concrete models (`BidOrderExecution`, `MakingSpread`, `MidpriceUp`,
`MakingSpreadS`), the order-book primitive `MyOrderBook`, and the stop-loss
compositor `StopLossReaching`.

Randomness is made explicit: every `update_state` call receives a pair of
rational draws in `[0,1)` (the first feeds the categorical event choice, the
second the cancellation-attribution uniform, consumed only on cancellation
events).  Runtime errors of the Python code (`ValueError` from
`np.random.choice` on a non-positive rate sum or a negative rate entry,
`IndexError`/assertion on an empty book side) are modelled by `StepError`.
The unbounded `while True` trial loop is modelled with explicit fuel; an
experiment result exists (`some r`) only when every trial reaches a terminal
success/failure outcome within its fuel.
-/

/-- Errors a single simulation step can raise: `degenerate` models
`np.random.choice` failing because the rate sum is non-positive (the spec's
`DegenerateRateError`), `negativeRate` models it failing because some rate
entry is negative, `emptySide` models querying the best level of an empty
book side (the spec's `EmptySideError`). -/
inductive StepError where
  | degenerate
  | negativeRate
  | emptySide
deriving DecidableEq, Repr

/-- First index whose cumulative rate mass strictly exceeds `x`; this is
`cdf.searchsorted(u, side=right)` as performed by `np.random.choice`, with
the cumulative sums kept unnormalized (`x` is the uniform draw scaled by the
total). Returns the length of the list when `x` is at or beyond the total. -/
def pick : List ℚ → ℚ → ℕ
  | [], _ => 0
  | r :: rs, x => if x < r then 0 else pick rs (x - r) + 1

/-- The categorical event sampler: `np.random.choice(arange(n), p=rates/sum)`
applied to an unnormalized rate list and a uniform draw `u`.  A non-positive
rate sum raises `DegenerateRateError`; a negative entry raises the
negative-probability `ValueError`; otherwise the returned index is the first
whose cumulative normalized mass exceeds `u`. -/
def categorical (rates : List ℚ) (u : ℚ) : Except StepError ℕ :=
  if rates.sum ≤ 0 then .error .degenerate
  else if rates.any (fun r => r < 0) then .error .negativeRate
  else .ok (pick rates (u * rates.sum))

/-- The abstract `MonteCarloExperiment` contract: a reset state, a one-event
state transition consuming a pair of uniform draws, and the two absorbing
predicates (Python returns `True` or `None`; truthiness makes them `Bool`). -/
structure Model (σ : Type) where
  reset : σ
  update : σ → ℚ × ℚ → Except StepError σ
  success : σ → Bool
  failure : σ → Bool

/-- Outcome of one trial of the driver loop. -/
inductive Outcome where
  | success
  | failure
  | err (e : StepError)
  | fuelOut
deriving DecidableEq, Repr

/-- The inner `while True` loop of `MonteCarloExperiment.evaluate`: update the
state with the next draw pair, then check `success()` strictly before
`failure()`; stop at the first check that fires.  `fuel` bounds the number of
iterations we are willing to unfold (the Python loop is unbounded). -/
def loopTrial {σ : Type} (M : Model σ) (ds : ℕ → ℚ × ℚ) : ℕ → ℕ → σ → Outcome
  | 0, _, _ => .fuelOut
  | fuel + 1, t, s =>
    match M.update s (ds t) with
    | .error e => .err e
    | .ok s' =>
      if M.success s' then .success
      else if M.failure s' then .failure
      else loopTrial M ds fuel (t + 1) s'

/-- One trial: `reset_state()` once, then the update/check loop. -/
def runTrial {σ : Type} (M : Model σ) (fuel : ℕ) (ds : ℕ → ℚ × ℚ) : Outcome :=
  loopTrial M ds fuel 0 M.reset

/-- Whether a trial reached one of its two absorbing outcomes. -/
def isTerminal : Outcome → Bool
  | .success => true
  | .failure => true
  | _ => false

/-- `MonteCarloExperiment.evaluate`: run `trials` independent trials (trial
`i` consumes the draw stream `dss i`), count successes, and return
`successes / trials`.  The result exists only when every trial terminates in
success or failure (a raising or non-terminating trial aborts the batch). -/
def mcEvaluate {σ : Type} (M : Model σ) (fuel trials : ℕ)
    (dss : ℕ → ℕ → ℚ × ℚ) : Option ℚ :=
  let outs := (List.range trials).map fun i => runTrial M fuel (dss i)
  if outs.all isTerminal then some ((outs.count .success : ℚ) / trials)
  else none

/-- The effective cancellation-rate multiplier of a side holding the owner:
the source computes `x_rate = volume - 1` and overrides it with `volume`
when the owner's queue index is `0`. -/
def effRate (v idx : ℤ) : ℤ :=
  if idx = 0 then v else v - 1

/-- The shared cancellation branch: draw `u`, and if it exceeds
`(volume - idx) / rate` the cancelled unit sat ahead of the owner, so the
owner's index decrements; the resting volume always decrements. Returns
`(new volume, new index)`. -/
def applyCancel (v idx rate : ℤ) (u : ℚ) : ℤ × ℤ :=
  (v - 1, if ((v : ℚ) - (idx : ℚ)) / (rate : ℚ) < u then idx - 1 else idx)

/-! ## BidOrderExecution -/

structure BidOrderCfg where
  lamda : ℚ
  mu : ℚ
  theta : ℚ
  bbid_orders : ℤ
  bask_orders : ℤ
  bid_pos : ℤ

structure BidOrderState where
  xb : ℤ
  xa : ℤ
  bid_idx : ℤ
deriving DecidableEq, Repr

/-- `BidOrderExecution.reset_state`. -/
def bidOrderReset (c : BidOrderCfg) : BidOrderState :=
  { xb := c.bbid_orders, xa := c.bask_orders, bid_idx := c.bid_pos }

/-- The six event rates of `BidOrderExecution.update_state` (the `pevent`
numerators before normalization): limit bid, limit ask, market bid, market
ask, cancel bid, cancel ask.  Our own order is never cancelled, so the bid
cancellation multiplier is the effective rate; the ask side holds no owner
order and uses the full volume. -/
def bidOrderRates (c : BidOrderCfg) (s : BidOrderState) : List ℚ :=
  [c.lamda, c.lamda, c.mu, c.mu,
   c.theta * (effRate s.xb s.bid_idx : ℚ), c.theta * (s.xa : ℚ)]

/-- `BidOrderExecution.update_state`: sample one event and apply it. -/
def bidOrderUpdate (c : BidOrderCfg) (s : BidOrderState) (d : ℚ × ℚ) :
    Except StepError BidOrderState :=
  match categorical (bidOrderRates c s) d.1 with
  | .error e => .error e
  | .ok e =>
    if e = 0 then .ok { s with xb := s.xb + 1 }
    else if e = 1 then .ok { s with xa := s.xa + 1 }
    else if e = 2 then
      .ok { s with xb := s.xb - 1,
                   bid_idx := s.bid_idx - (if 0 < s.bid_idx then 1 else 0) }
    else if e = 3 then .ok { s with xa := s.xa - 1 }
    else if e = 4 then
      let r := applyCancel s.xb s.bid_idx (effRate s.xb s.bid_idx) d.2
      .ok { s with xb := r.1, bid_idx := r.2 }
    else if e = 5 then .ok { s with xa := s.xa - 1 }
    else .ok s

/-- `BidOrderExecution.success`: the owner's bid reached the queue front. -/
def bidOrderSuccess (s : BidOrderState) : Bool := s.bid_idx = 0

/-- `BidOrderExecution.failure`: the best ask volume was exhausted. -/
def bidOrderFailure (s : BidOrderState) : Bool := s.xa = 0

def bidOrderModel (c : BidOrderCfg) : Model BidOrderState :=
  { reset := bidOrderReset c
    update := bidOrderUpdate c
    success := bidOrderSuccess
    failure := bidOrderFailure }

/-! ## MakingSpread -/

structure MakingSpreadCfg where
  lamda : ℚ
  mu : ℚ
  theta : ℚ
  bbid_orders : ℤ
  bask_orders : ℤ
  bid_pos : ℤ
  ask_pos : ℤ

structure MakingSpreadState where
  xb : ℤ
  xa : ℤ
  bid_idx : ℤ
  ask_idx : ℤ
deriving DecidableEq, Repr

/-- `MakingSpread.reset_state`. -/
def makingSpreadReset (c : MakingSpreadCfg) : MakingSpreadState :=
  { xb := c.bbid_orders, xa := c.bask_orders,
    bid_idx := c.bid_pos, ask_idx := c.ask_pos }

/-- The six event rates of `MakingSpread.update_state`; both sides hold an
owner order, so both cancellation multipliers are effective rates. -/
def makingSpreadRates (c : MakingSpreadCfg) (s : MakingSpreadState) : List ℚ :=
  [c.lamda, c.lamda, c.mu, c.mu,
   c.theta * (effRate s.xb s.bid_idx : ℚ),
   c.theta * (effRate s.xa s.ask_idx : ℚ)]

/-- `MakingSpread.update_state`. -/
def makingSpreadUpdate (c : MakingSpreadCfg) (s : MakingSpreadState)
    (d : ℚ × ℚ) : Except StepError MakingSpreadState :=
  match categorical (makingSpreadRates c s) d.1 with
  | .error e => .error e
  | .ok e =>
    if e = 0 then .ok { s with xb := s.xb + 1 }
    else if e = 1 then .ok { s with xa := s.xa + 1 }
    else if e = 2 then
      .ok { s with xb := s.xb - 1,
                   bid_idx := s.bid_idx - (if 0 < s.bid_idx then 1 else 0) }
    else if e = 3 then
      .ok { s with xa := s.xa - 1,
                   ask_idx := s.ask_idx - (if 0 < s.ask_idx then 1 else 0) }
    else if e = 4 then
      let r := applyCancel s.xb s.bid_idx (effRate s.xb s.bid_idx) d.2
      .ok { s with xb := r.1, bid_idx := r.2 }
    else if e = 5 then
      let r := applyCancel s.xa s.ask_idx (effRate s.xa s.ask_idx) d.2
      .ok { s with xa := r.1, ask_idx := r.2 }
    else .ok s

/-- `MakingSpread.failure`: one side exhausted while the owner's order on the
other side is still queued. -/
def makingSpreadFailure (s : MakingSpreadState) : Bool :=
  decide (s.xb = 0 ∧ 0 < s.ask_idx) || decide (s.xa = 0 ∧ 0 < s.bid_idx)

/-- `MakingSpread.success`: both owner orders reached the front. -/
def makingSpreadSuccess (s : MakingSpreadState) : Bool :=
  decide (s.bid_idx = 0 ∧ s.ask_idx = 0)

def makingSpreadModel (c : MakingSpreadCfg) : Model MakingSpreadState :=
  { reset := makingSpreadReset c
    update := makingSpreadUpdate c
    success := makingSpreadSuccess
    failure := makingSpreadFailure }

/-! ## The order-book primitive `MyOrderBook`

Each side is an association list `price ↦ volume` kept sorted best-first:
bids by descending price, asks by ascending price (the sorted containers of
the `order_book` package, where `side.index(0)` is the best level). -/

/-- Ask-side priority: lower price comes first. -/
def askBefore (a b : ℤ) : Bool := a < b

/-- Bid-side priority: higher price comes first. -/
def bidBefore (a b : ℤ) : Bool := b < a

/-- `side[price] = vol`: overwrite the level if the price exists, otherwise
insert it at its sorted position. -/
def setLevel (before : ℤ → ℤ → Bool) (p v : ℤ) :
    List (ℤ × ℤ) → List (ℤ × ℤ)
  | [] => [(p, v)]
  | (q, w) :: rest =>
    if p = q then (p, v) :: rest
    else if before p q then (p, v) :: (q, w) :: rest
    else (q, w) :: setLevel before p v rest

structure Book where
  bids : List (ℤ × ℤ)
  asks : List (ℤ × ℤ)
deriving DecidableEq, Repr

/-- `MyOrderBook.vbbid`: volume at the best bid. -/
def vbbid (b : Book) : Option ℤ := b.bids.head?.map Prod.snd

/-- `MyOrderBook.vbask`: volume at the best ask. -/
def vbask (b : Book) : Option ℤ := b.asks.head?.map Prod.snd

/-- Price of the best bid (`self.ob.bids.index(0)[0]`). -/
def bestBidPrice (b : Book) : Option ℤ := b.bids.head?.map Prod.fst

/-- Price of the best ask (`self.ob.asks.index(0)[0]`). -/
def bestAskPrice (b : Book) : Option ℤ := b.asks.head?.map Prod.fst

/-- `MyOrderBook.increment_vbbid`. -/
def incrementVbbid (b : Book) : Except StepError Book :=
  match b.bids with
  | [] => .error .emptySide
  | (p, v) :: rest => .ok { b with bids := (p, v + 1) :: rest }

/-- `MyOrderBook.increment_vbask`. -/
def incrementVbask (b : Book) : Except StepError Book :=
  match b.asks with
  | [] => .error .emptySide
  | (p, v) :: rest => .ok { b with asks := (p, v + 1) :: rest }

/-- `MyOrderBook.decrement_vbbid`: volume 1 deletes the level entirely. -/
def decrementVbbid (b : Book) : Except StepError Book :=
  match b.bids with
  | [] => .error .emptySide
  | (p, v) :: rest =>
    .ok { b with bids := if v = 1 then rest else (p, v - 1) :: rest }

/-- `MyOrderBook.decrement_vbask`: volume 1 deletes the level entirely. -/
def decrementVbask (b : Book) : Except StepError Book :=
  match b.asks with
  | [] => .error .emptySide
  | (p, v) :: rest =>
    .ok { b with asks := if v = 1 then rest else (p, v - 1) :: rest }

/-- Whether the best bid price is strictly below the best ask price whenever
both sides are non-empty (the spec's separation invariant). -/
def bestSeparated (b : Book) : Bool :=
  match b.bids.head?, b.asks.head? with
  | some l, some a => decide (l.1 < a.1)
  | _, _ => true

/-! ## MidpriceUp -/

structure MidpriceCfg where
  lamda : ℚ
  mu : ℚ
  theta : ℚ
  lambda_ : ℕ → ℚ
  bbid_orders : ℤ
  bask_orders : ℤ
  spread : ℕ

/-- `[lambda_(i) for i in range(1, S)]`: the in-spread arrival intensities at
tick distances `1 .. S-1`. -/
def inspreadList (f : ℕ → ℚ) (S : ℕ) : List ℚ :=
  (List.range' 1 (S - 1)).map f

/-- `MidpriceUp.reset_state`: one ask level at price `spread` and one bid
level at price `0`. -/
def midpriceReset (c : MidpriceCfg) : Book :=
  { bids := [((0 : ℤ), c.bbid_orders)],
    asks := [((c.spread : ℤ), c.bask_orders)] }

/-- The event rates of `MidpriceUp.update_state`: birth bid, birth ask,
death bid (`mu + theta*vbbid`), death ask, then the ask in-spread intensities
followed by the bid in-spread intensities. -/
def midpriceRates (c : MidpriceCfg) (vb va : ℤ) : List ℚ :=
  [c.lamda, c.lamda, c.mu + c.theta * (vb : ℚ), c.mu + c.theta * (va : ℚ)]
    ++ inspreadList c.lambda_ c.spread ++ inspreadList c.lambda_ c.spread

/-- `MidpriceUp.update_state`.  The event-index decoding mirrors the source
branch conditions exactly: indices `4 ≤ e < 4 + S` insert an ask at
`best_ask - (e - 3)` and the remaining indices insert a bid at
`best_bid + (e - 3 - S)`. -/
def midpriceUpUpdate (c : MidpriceCfg) (b : Book) (d : ℚ × ℚ) :
    Except StepError Book :=
  match vbbid b, vbask b with
  | some vb, some va =>
    match categorical (midpriceRates c vb va) d.1 with
    | .error e => .error e
    | .ok e =>
      if e = 0 then incrementVbbid b
      else if e = 1 then incrementVbask b
      else if e = 2 then decrementVbbid b
      else if e = 3 then decrementVbask b
      else if e < 4 + c.spread then
        match bestAskPrice b with
        | some pa =>
          .ok { b with asks := setLevel askBefore (pa - ((e - 3 : ℕ) : ℤ)) 1 b.asks }
        | none => .error .emptySide
      else
        match bestBidPrice b with
        | some pb =>
          .ok { b with bids := setLevel bidBefore (pb + ((e - 3 - c.spread : ℕ) : ℤ)) 1 b.bids }
        | none => .error .emptySide
  | _, _ => .error .emptySide

/-- `MidpriceUp.success`: the bid side gained a second level or the ask side
emptied (the midprice rose). -/
def midpriceSuccess (b : Book) : Bool :=
  decide (1 < b.bids.length) || decide (b.asks.length = 0)

/-- `MidpriceUp.failure`: the ask side gained a second level or the bid side
emptied (the midprice fell). -/
def midpriceFailure (b : Book) : Bool :=
  decide (1 < b.asks.length) || decide (b.bids.length = 0)

def midpriceUpModel (c : MidpriceCfg) : Model Book :=
  { reset := midpriceReset c
    update := midpriceUpUpdate c
    success := midpriceSuccess
    failure := midpriceFailure }

/-! ## MakingSpreadS -/

structure MakingSpreadSCfg where
  lamda : ℚ
  mu : ℚ
  theta : ℚ
  lambda_ : ℕ → ℚ
  bbid_orders : ℤ
  bask_orders : ℤ
  bid_pos : ℤ
  ask_pos : ℤ
  spread : ℕ

structure MakingSpreadSState where
  ob : Book
  bid_idx : ℤ
  ask_idx : ℤ
deriving DecidableEq, Repr

/-- `MakingSpreadS.reset_state`. -/
def makingSpreadSReset (c : MakingSpreadSCfg) : MakingSpreadSState :=
  { ob := { bids := [((0 : ℤ), c.bbid_orders)],
            asks := [((c.spread : ℤ), c.bask_orders)] },
    bid_idx := c.bid_pos, ask_idx := c.ask_pos }

/-- The event rates of `MakingSpreadS.update_state`: births, market orders,
the two effective-rate cancellations, then ask and bid in-spread
intensities. -/
def makingSpreadSRates (c : MakingSpreadSCfg) (vb va bidIdx askIdx : ℤ) :
    List ℚ :=
  [c.lamda, c.lamda, c.mu, c.mu,
   c.theta * (effRate vb bidIdx : ℚ), c.theta * (effRate va askIdx : ℚ)]
    ++ inspreadList c.lambda_ c.spread ++ inspreadList c.lambda_ c.spread

/-- `MakingSpreadS.update_state`; the in-spread event decoding mirrors the
source branch conditions `6 <= e < 6 + S` (ask, distance `e - 5`) and
`e >= 6 + S` (bid, distance `e - 5 - S`). -/
def makingSpreadSUpdate (c : MakingSpreadSCfg) (s : MakingSpreadSState)
    (d : ℚ × ℚ) : Except StepError MakingSpreadSState :=
  match vbbid s.ob, vbask s.ob with
  | some vb, some va =>
    match categorical (makingSpreadSRates c vb va s.bid_idx s.ask_idx) d.1 with
    | .error e => .error e
    | .ok e =>
      if e = 0 then
        match incrementVbbid s.ob with
        | .error er => .error er
        | .ok ob' => .ok { s with ob := ob' }
      else if e = 1 then
        match incrementVbask s.ob with
        | .error er => .error er
        | .ok ob' => .ok { s with ob := ob' }
      else if e = 2 then
        match decrementVbbid s.ob with
        | .error er => .error er
        | .ok ob' =>
          .ok { s with ob := ob',
                       bid_idx := s.bid_idx - (if 0 < s.bid_idx then 1 else 0) }
      else if e = 3 then
        match decrementVbask s.ob with
        | .error er => .error er
        | .ok ob' =>
          .ok { s with ob := ob',
                       ask_idx := s.ask_idx - (if 0 < s.ask_idx then 1 else 0) }
      else if e = 4 then
        let r := applyCancel vb s.bid_idx (effRate vb s.bid_idx) d.2
        match decrementVbbid s.ob with
        | .error er => .error er
        | .ok ob' => .ok { s with ob := ob', bid_idx := r.2 }
      else if e = 5 then
        let r := applyCancel va s.ask_idx (effRate va s.ask_idx) d.2
        match decrementVbask s.ob with
        | .error er => .error er
        | .ok ob' => .ok { s with ob := ob', ask_idx := r.2 }
      else if e < 6 + c.spread then
        match bestAskPrice s.ob with
        | some pa =>
          .ok { s with ob := { s.ob with
                  asks := setLevel askBefore (pa - ((e - 5 : ℕ) : ℤ)) 1 s.ob.asks } }
        | none => .error .emptySide
      else
        match bestBidPrice s.ob with
        | some pb =>
          .ok { s with ob := { s.ob with
                  bids := setLevel bidBefore (pb + ((e - 5 - c.spread : ℕ) : ℤ)) 1 s.ob.bids } }
        | none => .error .emptySide
  | _, _ => .error .emptySide

/-! ## StopLossReaching -/

/-- `scipy.stats.binom.pmf(k, n, p)` at an integer count. -/
def binomPMF (n k : ℕ) (p : ℚ) : ℚ :=
  (n.choose k : ℚ) * p ^ k * (1 - p) ^ (n - k)

structure StopLossCfg where
  n_times : ℤ
  k_ticks : ℕ
  mid : MidpriceCfg

/-- The analytic accumulation of `StopLossReaching.evaluate`: for
`j = 1 .. trials - 1`, with `n = k + 2 j`, add
`binom.pmf((n - k) / 2, n, p)`. -/
def stopLossSum (k trials : ℕ) (p : ℚ) : ℚ :=
  ∑ j in Finset.Ico 1 trials, binomPMF (k + 2 * j) ((k + 2 * j - k) / 2) p

/-- `StopLossReaching.evaluate`: run the inherited `MidpriceUp` Monte Carlo
evaluation, set `p = 1 - evaluate()`, and return the accumulated binomial
mass.  The stored `n_times` field is never read. -/
def stopLossEvaluate (c : StopLossCfg) (fuel trials : ℕ)
    (dss : ℕ → ℕ → ℚ × ℚ) : Option ℚ :=
  (mcEvaluate (midpriceUpModel c.mid) fuel trials dss).map fun q =>
    stopLossSum c.k_ticks trials (1 - q)

/-! ## Lemmas about the categorical sampler -/

/-- The picked index is in range and its cumulative interval contains the
scaled draw. -/
lemma pick_spec (l : List ℚ) : ∀ x : ℚ, 0 ≤ x → x < l.sum →
    pick l x < l.length ∧ (l.take (pick l x)).sum ≤ x
      ∧ x < (l.take (pick l x + 1)).sum := by
  induction l with
  | nil =>
    intro x hx hlt
    simp only [List.sum_nil] at hlt
    linarith
  | cons r rs ih =>
    intro x hx hlt
    by_cases h : x < r
    · refine ⟨by simp [pick, h], by simp [pick, h, hx], by simp [pick, h]⟩
    · have hr : r ≤ x := le_of_not_lt h
      have hx' : 0 ≤ x - r := by linarith
      have hlt' : x - r < rs.sum := by
        simp only [List.sum_cons] at hlt; linarith
      obtain ⟨h1, h2, h3⟩ := ih (x - r) hx' hlt'
      refine ⟨?_, ?_, ?_⟩
      · simp only [pick, if_neg h, List.length_cons]; omega
      · simp only [pick, if_neg h, List.take_succ_cons, List.sum_cons]
        linarith
      · simp only [pick, if_neg h, List.take_succ_cons, List.sum_cons]
        linarith

/-- Prefix sums of a non-negative list are monotone. -/
lemma take_sum_mono (l : List ℚ) (h : ∀ r ∈ l, 0 ≤ r) {i j : ℕ}
    (hij : i ≤ j) : (l.take i).sum ≤ (l.take j).sum := by
  have hadd := List.take_add l i (j - i)
  rw [Nat.add_sub_cancel' hij] at hadd
  rw [hadd, List.sum_append]
  have hpos : 0 ≤ ((l.drop i).take (j - i)).sum := by
    apply List.sum_nonneg
    intro a ha
    exact h a (List.drop_subset i l (List.take_subset _ _ ha))
  linarith

/-- At most one cumulative interval contains a given value. -/
lemma pick_unique (l : List ℚ) (h : ∀ r ∈ l, 0 ≤ r) (x : ℚ) (i j : ℕ)
    (hi : (l.take i).sum ≤ x ∧ x < (l.take (i + 1)).sum)
    (hj : (l.take j).sum ≤ x ∧ x < (l.take (j + 1)).sum) : i = j := by
  by_contra hne
  rcases Nat.lt_or_ge i j with hlt | hge
  · have := take_sum_mono l h (show i + 1 ≤ j by omega)
    linarith [hi.2, hj.1]
  · have hji : j < i := by omega
    have := take_sum_mono l h (show j + 1 ≤ i by omega)
    linarith [hj.2, hi.1]

/-- C9: a non-positive rate sum makes the categorical sampler fail with
`DegenerateRateError`; for non-negative rates with strictly positive sum and
a uniform draw in `[0,1)` it returns exactly one index `i`, characterized by
its cumulative interval (`sum of rates before i ≤ u * total < sum through
i`), whose width is exactly the rate of event `i` — i.e. the draw lands on
`i` with probability proportional to `rates[i] / total`. -/
theorem categorical_spec :
    (∀ (rates : List ℚ) (u : ℚ), rates.sum ≤ 0 →
      categorical rates u = .error .degenerate)
    ∧ (∀ (rates : List ℚ) (u : ℚ), (∀ r ∈ rates, 0 ≤ r) → 0 < rates.sum →
        0 ≤ u → u < 1 →
        ∃ i, categorical rates u = .ok i ∧ i < rates.length
          ∧ (rates.take (i + 1)).sum - (rates.take i).sum = rates.getD i 0
          ∧ ∀ j, (categorical rates u = .ok j ↔
              (rates.take j).sum ≤ u * rates.sum
                ∧ u * rates.sum < (rates.take (j + 1)).sum)) := by
  constructor
  · intro rates u hs
    simp [categorical, hs]
  · intro rates u hnn hs hu0 hu1
    have hany : rates.any (fun r => r < 0) = false := by
      rw [List.any_eq_false]
      intro r hr
      simpa using hnn r hr
    have hc : categorical rates u = .ok (pick rates (u * rates.sum)) := by
      unfold categorical
      rw [if_neg (not_le.mpr hs), hany]
      simp
    have hx0 : 0 ≤ u * rates.sum := mul_nonneg hu0 (le_of_lt hs)
    have hxlt : u * rates.sum < rates.sum := by
      calc u * rates.sum < 1 * rates.sum := mul_lt_mul_of_pos_right hu1 hs
        _ = rates.sum := one_mul _
    obtain ⟨hlen, hlo, hhi⟩ := pick_spec rates (u * rates.sum) hx0 hxlt
    refine ⟨pick rates (u * rates.sum), hc, hlen, ?_, ?_⟩
    · rw [List.take_succ, List.sum_append]
      simp [List.getElem?_eq_getElem hlen, List.getD_eq_getElem?_getD]
    · intro j
      constructor
      · intro hj
        rw [hc] at hj
        have : pick rates (u * rates.sum) = j := by
          simpa using hj
        subst this
        exact ⟨hlo, hhi⟩
      · intro hj
        have heq := pick_unique rates hnn (u * rates.sum)
          (pick rates (u * rates.sum)) j ⟨hlo, hhi⟩ hj
        rw [hc, heq]

/-- Witness for C9 at a concrete degenerate input: the all-zero rate list. -/
theorem categorical_spec_witness :
    categorical [0, 0] (1 / 2) = .error .degenerate :=
  categorical_spec.1 [0, 0] (1 / 2) (by simp)

/-! ## The trial driver -/

/-- C4: `MonteCarloExperiment.evaluate` trial semantics.  Each trial resets
once and then iterates `update_state`; after every update `success()` is
checked strictly before `failure()` (so a state satisfying both counts as a
success); the trial ends at the first check that fires; exactly `trials`
trials run; and the returned value is the success count divided by
`trials`. -/
theorem evaluate_driver_spec {σ : Type} (M : Model σ) :
    (∀ (fuel : ℕ) (ds : ℕ → ℚ × ℚ),
      runTrial M fuel ds = loopTrial M ds fuel 0 M.reset)
    ∧ (∀ (ds : ℕ → ℚ × ℚ) (fuel t : ℕ) (s s' : σ),
        M.update s (ds t) = .ok s' → M.success s' = true →
        loopTrial M ds (fuel + 1) t s = .success)
    ∧ (∀ (ds : ℕ → ℚ × ℚ) (fuel t : ℕ) (s s' : σ),
        M.update s (ds t) = .ok s' → M.success s' = false →
        M.failure s' = true → loopTrial M ds (fuel + 1) t s = .failure)
    ∧ (∀ (ds : ℕ → ℚ × ℚ) (fuel t : ℕ) (s s' : σ),
        M.update s (ds t) = .ok s' → M.success s' = false →
        M.failure s' = false →
        loopTrial M ds (fuel + 1) t s = loopTrial M ds fuel (t + 1) s')
    ∧ (∀ (fuel trials : ℕ) (dss : ℕ → ℕ → ℚ × ℚ),
        ((List.range trials).map fun i => runTrial M fuel (dss i)).length
          = trials)
    ∧ (∀ (fuel trials : ℕ) (dss : ℕ → ℕ → ℚ × ℚ) (r : ℚ),
        mcEvaluate M fuel trials dss = some r ↔
          ((List.range trials).map fun i => runTrial M fuel (dss i)).all
              isTerminal = true
            ∧ r = (((List.range trials).map fun i =>
                runTrial M fuel (dss i)).count .success : ℚ) / trials) := by
  refine ⟨fun _ _ => rfl, ?_, ?_, ?_, ?_, ?_⟩
  · intro ds fuel t s s' hu hs
    simp [loopTrial, hu, hs]
  · intro ds fuel t s s' hu hs hf
    simp [loopTrial, hu, hs, hf]
  · intro ds fuel t s s' hu hs hf
    simp [loopTrial, hu, hs, hf]
  · intro fuel trials dss
    simp
  · intro fuel trials dss r
    unfold mcEvaluate
    by_cases hall : ((List.range trials).map fun i =>
        runTrial M fuel (dss i)).all isTerminal
    · simp [hall, eq_comm]
    · simp [hall]

/-- Witness for C4 at a concrete input: a `BidOrderExecution` trial whose
first update reaches a success state terminates with `success`. -/
theorem evaluate_driver_spec_witness :
    loopTrial (bidOrderModel ⟨1, 1, 1, 5, 5, 0⟩) (fun _ => (1 / 2, 1 / 2)) 1 0
      (bidOrderReset ⟨1, 1, 1, 5, 5, 0⟩) = .success := by
  have h : bidOrderUpdate ⟨1, 1, 1, 5, 5, 0⟩ (bidOrderReset ⟨1, 1, 1, 5, 5, 0⟩)
      (1 / 2, 1 / 2) = .ok ⟨4, 5, 0⟩ := by
    norm_num [bidOrderUpdate, bidOrderReset, bidOrderRates, categorical, pick,
      effRate, applyCancel]
  exact (evaluate_driver_spec (bidOrderModel ⟨1, 1, 1, 5, 5, 0⟩)).2.1
    (fun _ => (1 / 2, 1 / 2)) 0 0 _ _ h (by simp [bidOrderModel, bidOrderSuccess])

/-! ## The stop-loss compositor -/

/-- C1: the analytically accumulated number of `StopLossReaching.evaluate`
is NOT bounded by 1: at `k_ticks = 1`, `trials = 10` and base probability
`p = 1/2` the accumulated sum exceeds 1 (it equals 576753/262144 ≈ 2.20), so
`evaluate()` does not return a value in `[0,1]` for every configuration. -/
theorem stopLossSum_exceeds_one : 1 < stopLossSum 1 10 (1 / 2) := by
  have hform : stopLossSum 1 10 (1 / 2)
      = ∑ j in Finset.Ico 1 10, binomPMF (1 + 2 * j) j (1 / 2) := by
    unfold stopLossSum
    apply Finset.sum_congr rfl
    intro j hj
    congr 1
    omega
  have hun : Finset.Ico 1 5 ∪ Finset.Ico 5 10 = Finset.Ico 1 10 :=
    Finset.Ico_union_Ico_eq_Ico (by norm_num) (by norm_num)
  have hd : Disjoint (Finset.Ico 1 5) (Finset.Ico 5 10) :=
    Finset.Ico_disjoint_Ico_consecutive 1 5 10
  have h2 : 0 ≤ ∑ j in Finset.Ico 5 10, binomPMF (1 + 2 * j) j (1 / 2) := by
    apply Finset.sum_nonneg
    intro j hj
    unfold binomPMF
    positivity
  have h1 : 1 < ∑ j in Finset.Ico 1 5, binomPMF (1 + 2 * j) j (1 / 2) := by
    rw [Finset.sum_Ico_eq_sum_range]
    simp [Finset.sum_range_succ]
    norm_num [binomPMF, Nat.choose]
  rw [hform, ← hun, Finset.sum_union hd]
  linarith

/-- C2: `StopLossReaching.evaluate` returns exactly the sum over
`j = 1 .. trials - 1` of the binomial mass of `(n - k) / 2` successes out of
`n = k + 2 j` Bernoulli steps with parameter `p = 1 - evaluate()` of the
inherited mid-price model, and every count `(n - k) / 2` equals `j`
exactly. -/
theorem stopLoss_formula (c : StopLossCfg) (fuel trials : ℕ)
    (dss : ℕ → ℕ → ℚ × ℚ) (q : ℚ)
    (h : mcEvaluate (midpriceUpModel c.mid) fuel trials dss = some q) :
    stopLossEvaluate c fuel trials dss
      = some (∑ j in Finset.Ico 1 trials,
          binomPMF (c.k_ticks + 2 * j) j (1 - q))
    ∧ ∀ k j : ℕ, (k + 2 * j - k) / 2 = j := by
  constructor
  · simp only [stopLossEvaluate, h, Option.map_some', stopLossSum]
    congr 1
    apply Finset.sum_congr rfl
    intro j hj
    congr 1
    omega
  · intro k j
    omega

/-- Witness for C2: a one-trial `MidpriceUp` run (the single ask level is
consumed by the first event, a success) composed through the stop-loss
formula. -/
theorem stopLoss_formula_witness :
    stopLossEvaluate ⟨0, 3, ⟨1, 1, 1, fun _ => 1, 5, 1, 2⟩⟩ 1 1
        (fun _ _ => (3 / 4, 0))
      = some (∑ j in Finset.Ico 1 1, binomPMF (3 + 2 * j) j (1 - 1)) := by
  have h : mcEvaluate (midpriceUpModel ⟨1, 1, 1, fun _ => 1, 5, 1, 2⟩) 1 1
      (fun _ _ => (3 / 4, 0)) = some 1 := by
    norm_num [mcEvaluate, runTrial, loopTrial, midpriceUpModel,
      midpriceUpUpdate, midpriceReset, midpriceRates, inspreadList,
      List.range', vbbid, vbask, categorical, pick, decrementVbask,
      midpriceSuccess, isTerminal, List.count_cons]
  exact (stopLoss_formula ⟨0, 3, ⟨1, 1, 1, fun _ => 1, 5, 1, 2⟩⟩ 1 1
    (fun _ _ => (3 / 4, 0)) 1 h).1

/-- C10: the value of `StopLossReaching.evaluate` does not depend on the
`n_times` constructor argument: two configurations that agree on everything
else (and two runs on the same draws) produce equal results. -/
theorem stopLoss_ignores_n_times (c : StopLossCfg) (n n' : ℤ)
    (fuel trials : ℕ) (dss : ℕ → ℕ → ℚ × ℚ) :
    stopLossEvaluate { c with n_times := n } fuel trials dss
      = stopLossEvaluate { c with n_times := n' } fuel trials dss := rfl

/-! ## Cancellation attribution and effective rates -/

/-- C5: in every model with owner queue positions, a cancellation event on a
side with resting volume `v`, owner index `idx` (`0 ≤ idx ≤ v`) and positive
effective rate decrements the resting volume by exactly one; the owner index
decrements by exactly one iff the fresh uniform draw exceeds
`(v - idx) / rate`; and the owner index never becomes negative (at `idx = 0`
the ratio equals `v / v = 1`, which no draw below 1 exceeds).  The remaining
conjuncts show the cancellation branches of `BidOrderExecution`,
`MakingSpread` and `MakingSpreadS` are exactly this operation. -/
theorem cancellation_spec :
    (∀ (v idx : ℤ) (u : ℚ), 0 ≤ idx → idx ≤ v → 0 < effRate v idx →
      0 ≤ u → u < 1 →
      (applyCancel v idx (effRate v idx) u).1 = v - 1
      ∧ ((applyCancel v idx (effRate v idx) u).2 = idx - 1 ↔
          ((v : ℚ) - (idx : ℚ)) / ((effRate v idx : ℤ) : ℚ) < u)
      ∧ 0 ≤ (applyCancel v idx (effRate v idx) u).2)
    ∧ (∀ (c : BidOrderCfg) (s : BidOrderState) (d : ℚ × ℚ),
        categorical (bidOrderRates c s) d.1 = .ok 4 →
        bidOrderUpdate c s d =
          .ok ⟨(applyCancel s.xb s.bid_idx (effRate s.xb s.bid_idx) d.2).1,
               s.xa,
               (applyCancel s.xb s.bid_idx (effRate s.xb s.bid_idx) d.2).2⟩)
    ∧ (∀ (c : MakingSpreadCfg) (s : MakingSpreadState) (d : ℚ × ℚ),
        categorical (makingSpreadRates c s) d.1 = .ok 4 →
        makingSpreadUpdate c s d =
          .ok ⟨(applyCancel s.xb s.bid_idx (effRate s.xb s.bid_idx) d.2).1,
               s.xa,
               (applyCancel s.xb s.bid_idx (effRate s.xb s.bid_idx) d.2).2,
               s.ask_idx⟩)
    ∧ (∀ (c : MakingSpreadCfg) (s : MakingSpreadState) (d : ℚ × ℚ),
        categorical (makingSpreadRates c s) d.1 = .ok 5 →
        makingSpreadUpdate c s d =
          .ok ⟨s.xb,
               (applyCancel s.xa s.ask_idx (effRate s.xa s.ask_idx) d.2).1,
               s.bid_idx,
               (applyCancel s.xa s.ask_idx (effRate s.xa s.ask_idx) d.2).2⟩)
    ∧ (∀ (c : MakingSpreadSCfg) (s : MakingSpreadSState) (d : ℚ × ℚ)
        (vb va : ℤ), vbbid s.ob = some vb → vbask s.ob = some va →
        categorical (makingSpreadSRates c vb va s.bid_idx s.ask_idx) d.1
          = .ok 4 →
        ∃ ob', decrementVbbid s.ob = .ok ob'
          ∧ makingSpreadSUpdate c s d =
              .ok ⟨ob',
                   (applyCancel vb s.bid_idx (effRate vb s.bid_idx) d.2).2,
                   s.ask_idx⟩)
    ∧ (∀ (c : MakingSpreadSCfg) (s : MakingSpreadSState) (d : ℚ × ℚ)
        (vb va : ℤ), vbbid s.ob = some vb → vbask s.ob = some va →
        categorical (makingSpreadSRates c vb va s.bid_idx s.ask_idx) d.1
          = .ok 5 →
        ∃ ob', decrementVbask s.ob = .ok ob'
          ∧ makingSpreadSUpdate c s d =
              .ok ⟨ob',
                   s.bid_idx,
                   (applyCancel va s.ask_idx (effRate va s.ask_idx) d.2).2⟩) := by
  refine ⟨?_, ?_, ?_, ?_, ?_, ?_⟩
  · intro v idx u h0 hle he hu0 hu1
    by_cases hidx : idx = 0
    · subst hidx
      have hv : effRate v 0 = v := by simp [effRate]
      have hvq : (0 : ℚ) < (v : ℚ) := by
        rw [hv] at he
        exact_mod_cast he
      have hone : ((v : ℚ) - ((0 : ℤ) : ℚ)) / ((effRate v 0 : ℤ) : ℚ) = 1 := by
        rw [hv]
        push_cast
        rw [sub_zero, div_self (ne_of_gt hvq)]
      have hcond : ¬ (((v : ℚ) - ((0 : ℤ) : ℚ)) / ((effRate v 0 : ℤ) : ℚ) < u) := by
        rw [hone]
        linarith
      refine ⟨rfl, ?_, ?_⟩
      · simp only [applyCancel, if_neg hcond]
        constructor
        · intro h
          omega
        · intro h
          exact absurd h hcond
      · simp only [applyCancel, if_neg hcond]
        omega
    · by_cases hcond : ((v : ℚ) - (idx : ℚ)) / ((effRate v idx : ℤ) : ℚ) < u
      · refine ⟨rfl, ?_, ?_⟩
        · simp only [applyCancel, if_pos hcond]
          simp [hcond]
        · simp only [applyCancel, if_pos hcond]
          omega
      · refine ⟨rfl, ?_, ?_⟩
        · simp only [applyCancel, if_neg hcond]
          constructor
          · intro h
            omega
          · intro h
            exact absurd h hcond
        · simp only [applyCancel, if_neg hcond]
          omega
  · intro c s d hcat
    simp [bidOrderUpdate, hcat]
  · intro c s d hcat
    simp [makingSpreadUpdate, hcat]
  · intro c s d hcat
    simp [makingSpreadUpdate, hcat]
  · intro c s d vb va hvb hva hcat
    rcases hbids : s.ob.bids with _ | ⟨⟨p, w⟩, rest⟩
    · rw [vbbid, hbids] at hvb
      simp at hvb
    · have hw : w = vb := by
        rw [vbbid, hbids] at hvb
        simpa using hvb
      subst hw
      refine ⟨{ s.ob with bids := if w = 1 then rest else (p, w - 1) :: rest },
        ?_, ?_⟩
      · simp [decrementVbbid, hbids]
      · simp [makingSpreadSUpdate, hvb, hva, hcat, decrementVbbid, hbids]
  · intro c s d vb va hvb hva hcat
    rcases hasks : s.ob.asks with _ | ⟨⟨p, w⟩, rest⟩
    · rw [vbask, hasks] at hva
      simp at hva
    · have hw : w = va := by
        rw [vbask, hasks] at hva
        simpa using hva
      subst hw
      refine ⟨{ s.ob with asks := if w = 1 then rest else (p, w - 1) :: rest },
        ?_, ?_⟩
      · simp [decrementVbask, hasks]
      · simp [makingSpreadSUpdate, hvb, hva, hcat, decrementVbask, hasks]

/-- Witness for C5 at a concrete input: volume 5, owner index 2, effective
rate 4, draw 9/10 (which exceeds the ratio 3/4). -/
theorem cancellation_spec_witness :
    (applyCancel 5 2 (effRate 5 2) (9 / 10)).1 = 4
      ∧ 0 ≤ (applyCancel 5 2 (effRate 5 2) (9 / 10)).2 := by
  have h := cancellation_spec.1 5 2 (9 / 10) (by norm_num) (by norm_num)
    (by norm_num [effRate]) (by norm_num) (by norm_num)
  refine ⟨?_, h.2.2⟩
  rw [h.1]
  norm_num

/-- C6: in every model with owner queue positions, the per-side
cancellation-rate multiplier handed to the event sampler (the factor that
`theta` multiplies) equals `volume - 1` when the owner's index on that side
is positive, and `volume` when the owner's index is 0. -/
theorem effective_rate_spec :
    (∀ (c : BidOrderCfg) (s : BidOrderState),
      (0 < s.bid_idx →
        (bidOrderRates c s).getD 4 0 = c.theta * ((s.xb : ℚ) - 1))
      ∧ (s.bid_idx = 0 →
        (bidOrderRates c s).getD 4 0 = c.theta * (s.xb : ℚ)))
    ∧ (∀ (c : MakingSpreadCfg) (s : MakingSpreadState),
      ((0 < s.bid_idx →
          (makingSpreadRates c s).getD 4 0 = c.theta * ((s.xb : ℚ) - 1))
        ∧ (s.bid_idx = 0 →
          (makingSpreadRates c s).getD 4 0 = c.theta * (s.xb : ℚ)))
      ∧ ((0 < s.ask_idx →
          (makingSpreadRates c s).getD 5 0 = c.theta * ((s.xa : ℚ) - 1))
        ∧ (s.ask_idx = 0 →
          (makingSpreadRates c s).getD 5 0 = c.theta * (s.xa : ℚ))))
    ∧ (∀ (c : MakingSpreadSCfg) (vb va bi ai : ℤ),
      ((0 < bi →
          (makingSpreadSRates c vb va bi ai).getD 4 0
            = c.theta * ((vb : ℚ) - 1))
        ∧ (bi = 0 →
          (makingSpreadSRates c vb va bi ai).getD 4 0 = c.theta * (vb : ℚ)))
      ∧ ((0 < ai →
          (makingSpreadSRates c vb va bi ai).getD 5 0
            = c.theta * ((va : ℚ) - 1))
        ∧ (ai = 0 →
          (makingSpreadSRates c vb va bi ai).getD 5 0
            = c.theta * (va : ℚ)))) := by
  refine ⟨?_, ?_, ?_⟩
  · intro c s
    constructor
    · intro h
      have : s.bid_idx ≠ 0 := by omega
      simp [bidOrderRates, effRate, this]
    · intro h
      simp [bidOrderRates, effRate, h]
  · intro c s
    refine ⟨⟨?_, ?_⟩, ⟨?_, ?_⟩⟩
    · intro h
      have : s.bid_idx ≠ 0 := by omega
      simp [makingSpreadRates, effRate, this]
    · intro h
      simp [makingSpreadRates, effRate, h]
    · intro h
      have : s.ask_idx ≠ 0 := by omega
      simp [makingSpreadRates, effRate, this]
    · intro h
      simp [makingSpreadRates, effRate, h]
  · intro c vb va bi ai
    refine ⟨⟨?_, ?_⟩, ⟨?_, ?_⟩⟩
    · intro h
      have : bi ≠ 0 := by omega
      simp [makingSpreadSRates, effRate, this]
    · intro h
      simp [makingSpreadSRates, effRate, h]
    · intro h
      have : ai ≠ 0 := by omega
      simp [makingSpreadSRates, effRate, this]
    · intro h
      simp [makingSpreadSRates, effRate, h]

/-- Witness for C6 at a concrete input: `BidOrderExecution` with volume 5 and
owner index 3 exposes cancellation multiplier 4. -/
theorem effective_rate_spec_witness :
    (bidOrderRates ⟨1, 1, 1, 5, 5, 3⟩ ⟨5, 5, 3⟩).getD 4 0 = 4 := by
  have h := (effective_rate_spec.1 ⟨1, 1, 1, 5, 5, 3⟩ ⟨5, 5, 3⟩).1 (by norm_num)
  rw [h]
  norm_num

/-! ## BidOrderExecution with bid_pos = 0 -/

/-- One update from a front-of-queue state (`bid_idx = 0`) with non-negative
volumes and positive base rates always succeeds and keeps `bid_idx = 0`. -/
lemma bidOrder_update_zero (c : BidOrderCfg) (s : BidOrderState) (d : ℚ × ℚ)
    (h0 : s.bid_idx = 0) (hxb : 0 ≤ s.xb) (hxa : 0 ≤ s.xa)
    (hl : 0 < c.lamda) (hm : 0 < c.mu) (ht : 0 ≤ c.theta)
    (hd1 : 0 ≤ d.1) (hd1lt : d.1 < 1) (hd2 : d.2 < 1) :
    ∃ s', bidOrderUpdate c s d = .ok s' ∧ s'.bid_idx = 0 := by
  have hxbq : (0 : ℚ) ≤ (s.xb : ℚ) := by exact_mod_cast hxb
  have hxaq : (0 : ℚ) ≤ (s.xa : ℚ) := by exact_mod_cast hxa
  have heff : effRate s.xb s.bid_idx = s.xb := by simp [effRate, h0]
  have hb0 : 0 ≤ c.theta * (s.xb : ℚ) := mul_nonneg ht hxbq
  have ha0 : 0 ≤ c.theta * (s.xa : ℚ) := mul_nonneg ht hxaq
  have hsum : (bidOrderRates c s).sum
      = c.lamda + c.lamda + c.mu + c.mu
        + c.theta * (s.xb : ℚ) + c.theta * (s.xa : ℚ) := by
    simp [bidOrderRates, heff]
    ring
  have hsumpos : 0 < (bidOrderRates c s).sum := by
    rw [hsum]
    linarith
  have hany : (bidOrderRates c s).any (fun r => r < 0) = false := by
    rw [List.any_eq_false]
    intro r hr
    simp [bidOrderRates, heff] at hr
    rcases hr with rfl | rfl | rfl | rfl | rfl | rfl <;> simp <;> linarith
  have hc : categorical (bidOrderRates c s) d.1
      = .ok (pick (bidOrderRates c s) (d.1 * (bidOrderRates c s).sum)) := by
    unfold categorical
    rw [if_neg (not_le.mpr hsumpos), hany]
    simp
  have hx0 : 0 ≤ d.1 * (bidOrderRates c s).sum :=
    mul_nonneg hd1 (le_of_lt hsumpos)
  have hxlt : d.1 * (bidOrderRates c s).sum < (bidOrderRates c s).sum := by
    calc d.1 * (bidOrderRates c s).sum
        < 1 * (bidOrderRates c s).sum := mul_lt_mul_of_pos_right hd1lt hsumpos
      _ = (bidOrderRates c s).sum := one_mul _
  obtain ⟨hlen, hlo, hhi⟩ :=
    pick_spec (bidOrderRates c s) (d.1 * (bidOrderRates c s).sum) hx0 hxlt
  set e := pick (bidOrderRates c s) (d.1 * (bidOrderRates c s).sum) with hedef
  have he6 : e < 6 := by simpa [bidOrderRates] using hlen
  interval_cases e
  · exact ⟨⟨s.xb + 1, s.xa, s.bid_idx⟩, by simp [bidOrderUpdate, hc], h0⟩
  · exact ⟨⟨s.xb, s.xa + 1, s.bid_idx⟩, by simp [bidOrderUpdate, hc], h0⟩
  · refine ⟨⟨s.xb - 1, s.xa,
      s.bid_idx - (if 0 < s.bid_idx then 1 else 0)⟩,
      by simp [bidOrderUpdate, hc], ?_⟩
    simp [h0]
  · exact ⟨⟨s.xb, s.xa - 1, s.bid_idx⟩, by simp [bidOrderUpdate, hc], h0⟩
  · -- cancellation on the bid side: selectable only when the bid rate is
    -- positive, in which case the attribution ratio is exactly 1
    have h4 : 0 < c.theta * (s.xb : ℚ) := by
      simp [bidOrderRates, heff] at hlo hhi
      linarith
    have hxbpos : (0 : ℚ) < (s.xb : ℚ) := by
      rcases eq_or_lt_of_le hxbq with h | h
      · rw [← h] at h4
        simp at h4
      · exact h
    have hcond : ¬ (((s.xb : ℚ) - (s.bid_idx : ℚ))
        / ((effRate s.xb s.bid_idx : ℤ) : ℚ) < d.2) := by
      rw [heff, h0]
      push_cast
      rw [sub_zero, div_self (ne_of_gt hxbpos)]
      linarith
    refine ⟨⟨(applyCancel s.xb s.bid_idx (effRate s.xb s.bid_idx) d.2).1,
      s.xa,
      (applyCancel s.xb s.bid_idx (effRate s.xb s.bid_idx) d.2).2⟩,
      by simp [bidOrderUpdate, hc], ?_⟩
    simp [applyCancel, hcond, h0]
    rw [show effRate s.xb 0 = s.xb by simp [effRate],
      div_self (ne_of_gt hxbpos)]
    linarith
  · exact ⟨⟨s.xb, s.xa - 1, s.bid_idx⟩, by simp [bidOrderUpdate, hc], h0⟩

/-- C7: `BidOrderExecution` constructed with `bid_pos = 0` and strictly
positive rates and initial volumes: `success()` already holds at the reset
state, every trial terminates successfully at its first check, and
`evaluate()` returns exactly 1 (in particular with `trials = 100`). -/
theorem bid_pos_zero_spec (c : BidOrderCfg) (fuel trials : ℕ)
    (dss : ℕ → ℕ → ℚ × ℚ)
    (hl : 0 < c.lamda) (hm : 0 < c.mu) (ht : 0 < c.theta)
    (hb : 1 ≤ c.bbid_orders) (ha : 1 ≤ c.bask_orders) (hpos : c.bid_pos = 0)
    (hfuel : 1 ≤ fuel) (htr : 1 ≤ trials)
    (hds : ∀ i t, 0 ≤ (dss i t).1 ∧ (dss i t).1 < 1 ∧ (dss i t).2 < 1) :
    bidOrderSuccess (bidOrderReset c) = true
      ∧ mcEvaluate (bidOrderModel c) fuel trials dss = some 1 := by
  refine ⟨by simp [bidOrderSuccess, bidOrderReset, hpos], ?_⟩
  have htrial : ∀ i, runTrial (bidOrderModel c) fuel (dss i) = .success := by
    intro i
    obtain ⟨f, rfl⟩ : ∃ f, fuel = f + 1 := ⟨fuel - 1, by omega⟩
    obtain ⟨s', hs', hidx⟩ := bidOrder_update_zero c (bidOrderReset c) (dss i 0)
      (by simp [bidOrderReset, hpos]) (by simp [bidOrderReset]; omega)
      (by simp [bidOrderReset]; omega) hl hm (le_of_lt ht)
      (hds i 0).1 (hds i 0).2.1 (hds i 0).2.2
    show loopTrial (bidOrderModel c) (dss i) (f + 1) 0 (bidOrderModel c).reset
      = .success
    simp [loopTrial, bidOrderModel, hs', bidOrderSuccess, hidx]
  unfold mcEvaluate
  have houts : ((List.range trials).map fun i =>
      runTrial (bidOrderModel c) fuel (dss i))
      = List.replicate trials Outcome.success := by
    apply List.eq_replicate_iff.2
    refine ⟨by simp, ?_⟩
    intro b hb'
    simp at hb'
    obtain ⟨i, hi, rfl⟩ := hb'
    exact htrial i
  rw [houts]
  have hall : (List.replicate trials Outcome.success).all isTerminal = true := by
    rw [List.all_eq_true]
    intro x hx
    rw [List.eq_of_mem_replicate hx]
    rfl
  rw [if_pos hall, List.count_replicate_self]
  have hne : ((trials : ℕ) : ℚ) ≠ 0 := Nat.cast_ne_zero.mpr (by omega)
  rw [div_self hne]

/-- Witness for C7: the concrete configuration with unit rates, volumes 5 and
`bid_pos = 0` evaluates to exactly 1 over 100 trials. -/
theorem bid_pos_zero_spec_witness :
    mcEvaluate (bidOrderModel ⟨1, 1, 1, 5, 5, 0⟩) 1 100
      (fun _ _ => (1 / 2, 1 / 2)) = some 1 :=
  (bid_pos_zero_spec ⟨1, 1, 1, 5, 5, 0⟩ 1 100 (fun _ _ => (1 / 2, 1 / 2))
    (by norm_num) (by norm_num) (by norm_num) (by norm_num) (by norm_num) rfl
    (by norm_num) (by norm_num) (fun i t => by norm_num)).2

/-! ## MakingSpread with an empty ask side -/

/-- C8 counterexample: for `MakingSpread` with `bask_orders = 0` (and unit
rates, volumes 5, positions 5), `evaluate()` does not return 0: the first
`update_state` of every trial runs before any predicate check and hands the
sampler the negative ask cancellation rate `theta * (0 - 1)`, so the batch
aborts with an error instead of producing `some 0`. -/
theorem making_spread_zero_ask_counterexample :
    mcEvaluate (makingSpreadModel ⟨1, 1, 1, 5, 0, 5, 5⟩) 1 100
        (fun _ _ => (1 / 2, 1 / 2)) = none
    ∧ mcEvaluate (makingSpreadModel ⟨1, 1, 1, 5, 0, 5, 5⟩) 1 100
        (fun _ _ => (1 / 2, 1 / 2)) ≠ some 0 := by
  have hupd : makingSpreadUpdate ⟨1, 1, 1, 5, 0, 5, 5⟩
      (makingSpreadReset ⟨1, 1, 1, 5, 0, 5, 5⟩) (1 / 2, 1 / 2)
      = .error .negativeRate := by
    norm_num [makingSpreadUpdate, makingSpreadReset, makingSpreadRates,
      effRate, categorical]
  have hrun : runTrial (makingSpreadModel ⟨1, 1, 1, 5, 0, 5, 5⟩) 1
      (fun _ => ((1 : ℚ) / 2, (1 : ℚ) / 2)) = .err .negativeRate := by
    simp only [runTrial, loopTrial, makingSpreadModel]
    rw [hupd]
  have hnone : mcEvaluate (makingSpreadModel ⟨1, 1, 1, 5, 0, 5, 5⟩) 1 100
      (fun _ _ => (1 / 2, 1 / 2)) = none := by
    unfold mcEvaluate
    rw [if_neg]
    rw [List.all_eq_true]
    intro hal
    have hmem : runTrial (makingSpreadModel ⟨1, 1, 1, 5, 0, 5, 5⟩) 1
        (fun _ => ((1 : ℚ) / 2, (1 : ℚ) / 2))
        ∈ (List.range 100).map fun i =>
            runTrial (makingSpreadModel ⟨1, 1, 1, 5, 0, 5, 5⟩) 1
              ((fun _ _ => ((1 : ℚ) / 2, (1 : ℚ) / 2)) i) :=
      List.mem_map.mpr ⟨0, List.mem_range.mpr (by norm_num), rfl⟩
    have hterm := hal _ hmem
    rw [hrun] at hterm
    simp [isTerminal] at hterm
  exact ⟨hnone, by rw [hnone]; simp⟩

/-- C8 (amended): for `MakingSpread` constructed with `bask_orders = 0`,
positive positions and positive `theta`, `failure()` is indeed true on the
reset state (`xa == 0`), but `evaluate()` does not return 0.0: the driver
calls `update_state` before the first predicate check, the ask cancellation
multiplier is `0 - 1 = -1`, and the sampling step fails (with the degenerate
or the negative-rate error depending on the rate sum), so every trial errors
and the batch produces no value. -/
theorem making_spread_zero_ask_spec (c : MakingSpreadCfg) (fuel trials : ℕ)
    (dss : ℕ → ℕ → ℚ × ℚ) (d : ℚ × ℚ)
    (hask : c.bask_orders = 0) (hbp : 0 < c.bid_pos) (hap : 0 < c.ask_pos)
    (ht : 0 < c.theta) (htr : 0 < trials) :
    makingSpreadFailure (makingSpreadReset c) = true
    ∧ (makingSpreadUpdate c (makingSpreadReset c) d = .error .degenerate
       ∨ makingSpreadUpdate c (makingSpreadReset c) d = .error .negativeRate)
    ∧ mcEvaluate (makingSpreadModel c) fuel trials dss = none := by
  have heffa : effRate c.bask_orders c.ask_pos = -1 := by
    have : c.ask_pos ≠ 0 := by omega
    simp [effRate, hask, this]
  have hneg : c.theta * ((effRate c.bask_orders c.ask_pos : ℤ) : ℚ) < 0 := by
    rw [heffa]
    push_cast
    linarith
  have hupd : ∀ d' : ℚ × ℚ,
      makingSpreadUpdate c (makingSpreadReset c) d' = .error .degenerate
      ∨ makingSpreadUpdate c (makingSpreadReset c) d'
          = .error .negativeRate := by
    intro d'
    by_cases hsum : (makingSpreadRates c (makingSpreadReset c)).sum ≤ 0
    · left
      simp [makingSpreadUpdate, categorical, hsum]
    · right
      have hany : (makingSpreadRates c (makingSpreadReset c)).any
          (fun r => r < 0) = true := by
        rw [List.any_eq_true]
        refine ⟨c.theta * ((effRate c.bask_orders c.ask_pos : ℤ) : ℚ), ?_,
          by simpa using hneg⟩
        simp [makingSpreadRates, makingSpreadReset]
      simp [makingSpreadUpdate, categorical, hsum, hany]
  refine ⟨?_, hupd d, ?_⟩
  · simp [makingSpreadFailure, makingSpreadReset, hask]
    exact Or.inr hbp
  · have htrial : ∀ i,
        isTerminal (runTrial (makingSpreadModel c) fuel (dss i)) = false := by
      intro i
      cases fuel with
      | zero => rfl
      | succ f =>
        rcases hupd (dss i 0) with he | he <;>
          simp [runTrial, loopTrial, makingSpreadModel, he, isTerminal]
    unfold mcEvaluate
    rw [if_neg]
    rw [List.all_eq_true]
    intro hal
    have hmem : runTrial (makingSpreadModel c) fuel (dss 0)
        ∈ (List.range trials).map fun i =>
            runTrial (makingSpreadModel c) fuel (dss i) :=
      List.mem_map_of_mem _ (List.mem_range.mpr htr)
    have hterm := hal _ hmem
    rw [htrial 0] at hterm
    simp at hterm

/-- Witness for the amended C8 at a concrete input. -/
theorem making_spread_zero_ask_spec_witness :
    makingSpreadFailure (makingSpreadReset ⟨1, 1, 1, 5, 0, 5, 5⟩) = true
    ∧ mcEvaluate (makingSpreadModel ⟨1, 1, 1, 5, 0, 5, 5⟩) 2 50
        (fun _ _ => (1 / 3, 2 / 3)) = none := by
  have h := making_spread_zero_ask_spec ⟨1, 1, 1, 5, 0, 5, 5⟩ 2 50
    (fun _ _ => (1 / 3, 2 / 3)) (1 / 3, 2 / 3) rfl (by norm_num)
    (by norm_num) (by norm_num) (by norm_num)
  exact ⟨h.1, h.2.2⟩

/-! ## The in-spread event decoding bug of MidpriceUp -/

/-- C3: at spread 2 with unit rates and intensities, the draw `u = 31/32`
selects event index 5 — the bid in-spread arrival at distance 1 — but the
branch condition `event < 4 + S` routes it to the ask branch with distance
`5 - 3 = 2`, inserting an ask level at price `best_ask - 2 = 0`, which is
exactly the best bid price: afterwards best bid = best ask = 0, violating
the strict best-bid-below-best-ask invariant and the claim that in-spread
insertions land strictly inside the spread. -/
theorem midprice_inspread_cross :
    midpriceUpUpdate ⟨1, 1, 1, fun _ => 1, 5, 5, 2⟩
        (midpriceReset ⟨1, 1, 1, fun _ => 1, 5, 5, 2⟩) (31 / 32, 0)
      = .ok ⟨[(0, 5)], [(0, 1), (2, 5)]⟩
    ∧ bestSeparated ⟨[(0, 5)], [(0, 1), (2, 5)]⟩ = false := by
  constructor
  · norm_num [midpriceUpUpdate, midpriceReset, vbbid, vbask, midpriceRates,
      inspreadList, List.range', categorical, pick, bestAskPrice, setLevel,
      askBefore]
  · rfl
